import Mathlib

/-!
Verification of the VoiceControl browser extension's content script
(`content.js`): the similarity scorer, the fuzzy command matcher, the
wake-word session state machine, the link-badge overlay, the element
registry, and the action executor.  Pure functions of the source are
translated into executable Lean definitions; DOM and timer state is
made explicit as record-passing.
-/

namespace VoiceControl

set_option maxRecDepth 100000

open Levenshtein (defaultCost)

/-- ASCII lowercase of a single character, as JS `toLowerCase` acts on the
ASCII range. -/
def jsCharLower (c : Char) : Char :=
  if 65 ≤ c.toNat ∧ c.toNat ≤ 90 then Char.ofNat (c.toNat + 32) else c

/-- JS `String.prototype.toLowerCase` (ASCII range). -/
def jsLower (s : String) : String := ⟨s.data.map jsCharLower⟩

/-- Whitespace characters stripped by JS `trim` / matched by the regex
class `\s` (the usual ASCII ones). -/
def isJsSpace (c : Char) : Bool :=
  c == ' ' || c == '\t' || c == '\n' || c == '\r'

/-- JS `String.prototype.trim`: strip whitespace from both ends. -/
def jsTrim (s : String) : String :=
  ⟨((s.data.dropWhile isJsSpace).reverse.dropWhile isJsSpace).reverse⟩

/-- JS `split(" ")` on a character list: cut at every single space. -/
def splitSpaceAux : List Char → List Char → List (List Char)
  | [], acc => [acc.reverse]
  | c :: cs, acc =>
      if c = ' ' then acc.reverse :: splitSpaceAux cs []
      else splitSpaceAux cs (c :: acc)

/-- JS `String.prototype.split(" ")`. -/
def jsSplitSpace (s : String) : List String :=
  (splitSpaceAux s.data []).map fun w => ⟨w⟩

/-- JS `Array.prototype.join(" ")`. -/
def joinSpace : List String → String
  | [] => ""
  | [w] => w
  | w :: ws => w ++ " " ++ joinSpace ws

/-- Occurrence of `pat` as a contiguous sublist: JS `includes` on lists. -/
def listIncludes (pat : List Char) : List Char → Bool
  | [] => pat.isEmpty
  | c :: cs => pat.isPrefixOf (c :: cs) || listIncludes pat cs

/-- JS `String.prototype.includes`. -/
def jsIncludes (s pat : String) : Bool := listIncludes pat.data s.data

/-- JS `String.prototype.startsWith`. -/
def jsStartsWith (s pat : String) : Bool := pat.data.isPrefixOf s.data

/-- JS `s.replace(/\s/g, "")`: delete every whitespace character. -/
def jsStripSpaces (s : String) : String :=
  ⟨s.data.filter fun c => !isJsSpace c⟩

/-- `levenshteinDistance(a, b)` from the source: the classic
dynamic-programming edit distance with unit insertion/deletion/substitution
costs.  The source fills the DP table row by row indexed `[b][a]` and reads
off `matrix[b.length][a.length]`; here the same table is computed by
Mathlib's row-based `levenshtein` with unit costs over the characters. -/
def levenshteinDistance (a b : String) : ℕ :=
  levenshtein defaultCost b.data a.data

/-- `stringSimilarity(s1, s2)` from the source: order the two strings as
`longer`/`shorter`, return `1.0` when both are empty, otherwise
`(longerLength - levenshteinDistance(longer, shorter)) / longerLength`. -/
def stringSimilarity (s1 s2 : String) : ℚ :=
  let longer := if s1.length < s2.length then s2 else s1
  let shorter := if s1.length < s2.length then s1 else s2
  if longer.length = 0 then 1
  else mkRat ((longer.length : ℤ) - (levenshteinDistance longer shorter : ℤ))
    longer.length

/-- The spec's formula for the similarity scorer, written from its words:
`(max(len(a),len(b)) − editDistance(a,b)) / max(len(a),len(b))`, with the
both-empty edge case defined as `1.0`. -/
def similaritySpec (a b : String) : ℚ :=
  if max a.length b.length = 0 then 1
  else (((max a.length b.length : ℕ) : ℚ) - (levenshteinDistance a b : ℚ)) /
    ((max a.length b.length : ℕ) : ℚ)

theorem lev_nil_right (a : List Char) :
    levenshtein (defaultCost (α := Char)) a [] = a.length := by
  induction a with
  | nil => simp
  | cons x xs ih =>
      rw [levenshtein_cons_nil, ih]
      simp [defaultCost]
      omega

theorem lev_nil_left (b : List Char) :
    levenshtein (defaultCost (α := Char)) [] b = b.length := by
  induction b with
  | nil => simp
  | cons y ys ih =>
      rw [levenshtein_nil_cons, ih]
      simp [defaultCost]
      omega

theorem lev_self (a : List Char) :
    levenshtein (defaultCost (α := Char)) a a = 0 := by
  induction a with
  | nil => simp
  | cons x xs ih =>
      rw [levenshtein_cons_cons, ih]
      simp [defaultCost]

theorem lev_comm (a : List Char) : ∀ b : List Char,
    levenshtein (defaultCost (α := Char)) a b =
      levenshtein (defaultCost (α := Char)) b a := by
  induction a with
  | nil =>
      intro b
      rw [lev_nil_left, lev_nil_right]
  | cons x xs ih =>
      intro b
      induction b with
      | nil => rw [lev_nil_left, lev_nil_right]
      | cons y ys ih2 =>
          simp only [levenshtein_cons_cons]
          rw [← ih2, ih (y :: ys), ih ys]
          have hsub : (defaultCost (α := Char)).substitute x y =
              (defaultCost (α := Char)).substitute y x := by
            by_cases h : x = y
            · simp [defaultCost, h]
            · have h2 : ¬ y = x := fun h' => h h'.symm
              simp [defaultCost, h, h2]
          rw [hsub]
          exact min_left_comm _ _ _

theorem lev_le_max (a : List Char) : ∀ b : List Char,
    levenshtein (defaultCost (α := Char)) a b ≤ max a.length b.length := by
  induction a with
  | nil =>
      intro b
      rw [lev_nil_left]
      exact le_max_right _ _
  | cons x xs ih =>
      intro b
      cases b with
      | nil =>
          rw [lev_nil_right]
          exact le_max_left _ _
      | cons y ys =>
          have h3 : levenshtein (defaultCost (α := Char)) (x :: xs) (y :: ys) ≤
              (defaultCost (α := Char)).substitute x y +
                levenshtein (defaultCost (α := Char)) xs ys := by
            rw [levenshtein_cons_cons]
            exact le_trans (min_le_right _ _) (min_le_right _ _)
          have hsub : (defaultCost (α := Char)).substitute x y ≤ 1 := by
            simp only [defaultCost]
            split <;> omega
          have := ih ys
          simp only [List.length_cons]
          omega

theorem levD_comm (a b : String) :
    levenshteinDistance a b = levenshteinDistance b a :=
  lev_comm b.data a.data

theorem levD_le_max (a b : String) :
    levenshteinDistance a b ≤ max a.length b.length := by
  have h := lev_le_max b.data a.data
  rw [Nat.max_comm]
  exact h

theorem levD_self (a : String) : levenshteinDistance a a = 0 :=
  lev_self a.data

theorem levD_empty_right (a : String) : levenshteinDistance a "" = a.length :=
  lev_nil_left a.data

theorem mkRat_sub_div (L d : ℕ) :
    mkRat ((L : ℤ) - (d : ℤ)) L = ((L : ℚ) - (d : ℚ)) / (L : ℚ) := by
  rw [Rat.mkRat_eq_divInt, Rat.divInt_eq_div]
  push_cast
  ring

theorem stringSimilarity_eq_spec (a b : String) :
    stringSimilarity a b = similaritySpec a b := by
  rcases lt_trichotomy a.length b.length with h | h | h
  · have hmax : max a.length b.length = b.length := Nat.max_eq_right h.le
    simp only [stringSimilarity, similaritySpec, if_pos h, hmax,
      levD_comm b a, mkRat_sub_div]
  · have hlt : ¬ a.length < b.length := by omega
    have hmax : max a.length b.length = a.length := by omega
    simp only [stringSimilarity, similaritySpec, if_neg hlt, hmax, mkRat_sub_div]
  · have hlt : ¬ a.length < b.length := by omega
    have hmax : max a.length b.length = a.length := by omega
    simp only [stringSimilarity, similaritySpec, if_neg hlt, hmax, mkRat_sub_div]

theorem similaritySpec_nonneg (a b : String) : 0 ≤ similaritySpec a b := by
  unfold similaritySpec
  split
  · norm_num
  · next h =>
      have hd := levD_le_max a b
      apply div_nonneg
      · have hle : (levenshteinDistance a b : ℚ) ≤
            ((max a.length b.length : ℕ) : ℚ) := by
          exact_mod_cast hd
        linarith
      · positivity

theorem similaritySpec_le_one (a b : String) : similaritySpec a b ≤ 1 := by
  unfold similaritySpec
  split
  · norm_num
  · next h =>
      have hM : (0 : ℚ) < ((max a.length b.length : ℕ) : ℚ) := by
        exact_mod_cast Nat.pos_of_ne_zero h
      rw [div_le_one hM]
      have : (0 : ℚ) ≤ (levenshteinDistance a b : ℚ) := by positivity
      linarith

theorem string_ne_empty_length_pos {a : String} (h : a ≠ "") : a.length ≠ 0 := by
  intro h0
  apply h
  cases a with
  | mk l =>
      have : l = [] := List.length_eq_zero.mp h0
      simp [this]

/-- C4: `stringSimilarity` computes the spec formula
`(max(len a, len b) − levenshtein(a, b)) / max(len a, len b)` with classic
unit-cost Levenshtein distance; its value lies in `[0, 1]`; a non-empty
string compared with the empty string scores `0`; and two empty strings
score `1`. -/
theorem C4_similarity_formula (a b : String) :
    stringSimilarity a b = similaritySpec a b ∧
    0 ≤ stringSimilarity a b ∧ stringSimilarity a b ≤ 1 ∧
    (a ≠ "" → stringSimilarity a "" = 0) ∧
    stringSimilarity "" "" = 1 := by
  refine ⟨stringSimilarity_eq_spec a b, ?_, ?_, ?_, by decide⟩
  · rw [stringSimilarity_eq_spec]
    exact similaritySpec_nonneg a b
  · rw [stringSimilarity_eq_spec]
    exact similaritySpec_le_one a b
  · intro hne
    have hpos : a.length ≠ 0 := string_ne_empty_length_pos hne
    rw [stringSimilarity_eq_spec]
    unfold similaritySpec
    have hmax : max a.length (String.length "") = a.length := by
      simp
    rw [hmax, if_neg hpos, levD_empty_right]
    simp

/-- Witness for C4 at a concrete input. -/
theorem C4_witness :
    ("ab" : String) ≠ "" ∧ stringSimilarity "ab" "" = 0 :=
  ⟨by decide, (C4_similarity_formula "ab" "x").2.2.2.1 (by decide)⟩

/-- C5: the similarity scorer is symmetric, and every non-empty string has
similarity `1` with itself. -/
theorem C5_similarity_symm (a b : String) :
    stringSimilarity a b = stringSimilarity b a ∧
    (a ≠ "" → stringSimilarity a a = 1) := by
  constructor
  · rw [stringSimilarity_eq_spec, stringSimilarity_eq_spec]
    unfold similaritySpec
    rw [Nat.max_comm b.length a.length, levD_comm b a]
  · intro hne
    have hpos : a.length ≠ 0 := string_ne_empty_length_pos hne
    rw [stringSimilarity_eq_spec]
    unfold similaritySpec
    rw [Nat.max_self] at *
    rw [if_neg hpos, levD_self]
    have hM : (0 : ℚ) < (a.length : ℚ) := by
      exact_mod_cast Nat.pos_of_ne_zero hpos
    field_simp

/-- Witness for C5 at a concrete input. -/
theorem C5_witness :
    ("ab" : String) ≠ "" ∧ stringSimilarity "ab" "ab" = 1 :=
  ⟨by decide, (C5_similarity_symm "ab" "x").2 (by decide)⟩

/-- A row of the source's `commandMap` table. -/
structure CommandTemplate where
  keywords : List String
  action : String
  hasParam : Bool
deriving DecidableEq

/-- The source's `commandMap` vocabulary (lines 300–321). -/
def commandMap : List CommandTemplate := [
  ⟨["go to", "navigate to"], "goTo", true⟩,
  ⟨["scroll down", "move down", "go down"], "scrollDown", false⟩,
  ⟨["scroll up", "move up", "go up"], "scrollUp", false⟩,
  ⟨["scroll to top", "go to top", "top of page"], "scrollToTop", false⟩,
  ⟨["scroll to bottom", "go to bottom", "bottom of page"], "scrollToBottom", false⟩,
  ⟨["go back", "previous page", "back"], "goBack", false⟩,
  ⟨["go forward", "next page", "forward"], "goForward", false⟩,
  ⟨["reload", "refresh", "reload page"], "reload", false⟩,
  ⟨["new tab", "open tab"], "newTab", false⟩,
  ⟨["close tab", "close this tab"], "closeTab", false⟩,
  ⟨["next tab", "go to next tab"], "nextTab", false⟩,
  ⟨["previous tab", "go to previous tab"], "previousTab", false⟩,
  ⟨["show links", "show all links", "display links"], "showLinks", false⟩,
  ⟨["hide links", "hide all links", "remove links"], "hideLinks", false⟩,
  ⟨["click", "tap", "press button"], "click", true⟩,
  ⟨["type", "write", "enter text"], "type", true⟩,
  ⟨["press enter", "hit enter", "enter"], "pressEnter", false⟩,
  ⟨["focus", "select field"], "focus", true⟩,
  ⟨["clear field", "clear text", "clear input"], "clearField", false⟩,
  ⟨["open", "launch"], "open", true⟩]

/-- Score one keyword of one template against the normalized transcript
text, together with the extracted raw parameter (source lines 370–397):
for a parameterized template the transcript's first `k` words (where `k`
is the keyword's word count) are compared when the transcript has at
least `k` words, and the rest is the parameter; otherwise the whole
transcript is compared and the parameter stays empty. -/
def scoreKeyword (text : String) (cmd : CommandTemplate) (kw : String) :
    ℚ × String :=
  if cmd.hasParam then
    let kwWords := (jsSplitSpace kw).length
    let trWords := jsSplitSpace text
    if trWords.length ≥ kwWords then
      (stringSimilarity (joinSpace (trWords.take kwWords)) kw,
        joinSpace (trWords.drop kwWords))
    else (stringSimilarity text kw, "")
  else (stringSimilarity text kw, "")

/-- The matcher's running fold state: `bestScore`, `bestAction`,
`bestKeyword`, `matchedParam` of `parseCommand`. -/
structure MatchState where
  bestScore : ℚ
  bestAction : Option String
  bestKeyword : Option String
  matchedParam : String
deriving DecidableEq

/-- The initial fold state: score `0`, no action, no keyword, empty param. -/
def initMatch : MatchState := ⟨0, none, none, ""⟩

/-- One iteration of the matcher's inner loop: update the best state when
the keyword's score strictly exceeds the current best. -/
def stepKeyword (text : String) (cmd : CommandTemplate) (st : MatchState)
    (kw : String) : MatchState :=
  let sp := scoreKeyword text cmd kw
  if sp.1 > st.bestScore then ⟨sp.1, some cmd.action, some kw, sp.2⟩ else st

/-- The double loop of `parseCommand` over the vocabulary and each
template's keywords. -/
def bestMatch (text : String) : MatchState :=
  commandMap.foldl (fun st cmd => cmd.keywords.foldl (stepKeyword text cmd) st)
    initMatch

/-- The observable outcome of `parseCommand`: execute a matched action,
ask "did you mean ...", or report "not recognized". -/
inductive Decision where
  | execute (action : String) (param : String)
  | clarify (keyword : String)
  | notRecognized
deriving DecidableEq

/-- The normalization `transcript.toLowerCase().trim()` at the top of
`parseCommand` (source line 363). -/
def parseText (transcript : String) : String := jsTrim (jsLower transcript)

/-- `parseCommand` in command mode (source lines 363–408): normalize the
transcript, fold for the best candidate, then apply the two-tier decision
policy (accept above `0.6`, clarify above `0`, otherwise unrecognized). -/
def parseCommand (transcript : String) : Decision :=
  let st := bestMatch (parseText transcript)
  if st.bestScore > mkRat 6 10 then
    Decision.execute (st.bestAction.getD "") st.matchedParam
  else if st.bestKeyword.isSome then
    Decision.clarify (st.bestKeyword.getD "")
  else Decision.notRecognized

/-- A single (template, keyword) candidate of the matcher's search space,
with its score and extracted parameter. -/
structure Candidate where
  action : String
  keyword : String
  score : ℚ
  param : String
deriving DecidableEq

/-- `stepKeyword` expressed on a flat candidate. -/
def stepCand (st : MatchState) (c : Candidate) : MatchState :=
  if c.score > st.bestScore then ⟨c.score, some c.action, some c.keyword, c.param⟩
  else st

/-- All candidates a single template contributes, in keyword order. -/
def candidatesOf (text : String) (cmd : CommandTemplate) : List Candidate :=
  cmd.keywords.map fun kw =>
    ⟨cmd.action, kw, (scoreKeyword text cmd kw).1, (scoreKeyword text cmd kw).2⟩

/-- The whole vocabulary × synonym cross-product, in table order. -/
def candidates (text : String) : List Candidate :=
  commandMap.bind (candidatesOf text)

/-- The best similarity score over the whole cross-product (with the
matcher's floor `0`). -/
def bestScoreSpec (text : String) : ℚ :=
  ((candidates text).map Candidate.score).foldl max 0

/-- The first candidate in table order attaining the best score. -/
def firstBest (text : String) : Option Candidate :=
  (candidates text).find? fun c => c.score == bestScoreSpec text

theorem le_foldl_max (l : List ℚ) : ∀ floor : ℚ, floor ≤ l.foldl max floor := by
  induction l with
  | nil => intro floor; exact le_refl _
  | cons x xs ih =>
      intro floor
      exact le_trans (le_max_left _ _) (ih _)

theorem mem_le_foldl_max (l : List ℚ) : ∀ (floor x : ℚ), x ∈ l →
    x ≤ l.foldl max floor := by
  induction l with
  | nil => intro _ _ hx; cases hx
  | cons y ys ih =>
      intro floor x hx
      rcases List.mem_cons.mp hx with h | h
      · subst h
        exact le_trans (le_max_right _ _) (le_foldl_max ys _)
      · exact ih _ _ h

theorem foldl_max_attained (l : List ℚ) : ∀ floor : ℚ,
    l.foldl max floor = floor ∨ l.foldl max floor ∈ l := by
  induction l with
  | nil => intro floor; left; rfl
  | cons x xs ih =>
      intro floor
      rw [List.foldl_cons]
      rcases ih (max floor x) with h | h
      · rcases le_or_lt x floor with hle | hlt
        · left
          rw [h, max_eq_left hle]
        · right
          rw [h, max_eq_right hlt.le]
          exact List.mem_cons_self _ _
      · right
        exact List.mem_cons_of_mem _ h

theorem foldl_bind_eq {α β σ : Type} (l : List α) (f : α → List β)
    (g : σ → β → σ) : ∀ init : σ,
    (l.bind f).foldl g init = l.foldl (fun st x => (f x).foldl g st) init := by
  induction l with
  | nil => intro init; rfl
  | cons x xs ih =>
      intro init
      simp only [List.cons_bind, List.foldl_append, List.foldl_cons, ih]

theorem keywords_foldl_eq (text : String) (cmd : CommandTemplate)
    (st : MatchState) :
    cmd.keywords.foldl (stepKeyword text cmd) st =
      (candidatesOf text cmd).foldl stepCand st := by
  unfold candidatesOf
  rw [List.foldl_map]
  rfl

theorem bestMatch_eq_foldl (text : String) :
    bestMatch text = (candidates text).foldl stepCand initMatch := by
  unfold bestMatch candidates
  rw [foldl_bind_eq]
  congr 1
  funext st cmd
  exact keywords_foldl_eq text cmd st

theorem foldl_stepCand_score (cs : List Candidate) : ∀ st : MatchState,
    (cs.foldl stepCand st).bestScore =
      (cs.map Candidate.score).foldl max st.bestScore := by
  induction cs with
  | nil => intro st; rfl
  | cons c cs ih =>
      intro st
      rw [List.foldl_cons, List.map_cons, List.foldl_cons, ih]
      congr 1
      unfold stepCand
      split
      · next h => exact (max_eq_right h.le).symm
      · next h => exact (max_eq_left (not_lt.mp h)).symm

theorem foldl_stepCand_of_le (cs : List Candidate) : ∀ st : MatchState,
    (∀ c ∈ cs, c.score ≤ st.bestScore) → cs.foldl stepCand st = st := by
  induction cs with
  | nil => intro st _; rfl
  | cons c cs ih =>
      intro st h
      rw [List.foldl_cons]
      have hc : c.score ≤ st.bestScore := h c (List.mem_cons_self _ _)
      have hstep : stepCand st c = st := by
        unfold stepCand
        rw [if_neg (not_lt.mpr hc)]
      rw [hstep]
      exact ih st fun d hd => h d (List.mem_cons_of_mem _ hd)

theorem foldl_stepCand_find (cs : List Candidate) : ∀ st : MatchState,
    st.bestScore < (cs.map Candidate.score).foldl max st.bestScore →
    ∃ c₀, (cs.find? fun c =>
        c.score == (cs.map Candidate.score).foldl max st.bestScore) = some c₀ ∧
      cs.foldl stepCand st =
        ⟨c₀.score, some c₀.action, some c₀.keyword, c₀.param⟩ ∧
      c₀.score = (cs.map Candidate.score).foldl max st.bestScore := by
  induction cs with
  | nil => intro st hlt; exact absurd hlt (lt_irrefl _)
  | cons c cs ih =>
      intro st hlt
      rw [List.map_cons, List.foldl_cons] at hlt ⊢
      by_cases hc : c.score = (cs.map Candidate.score).foldl max
          (max st.bestScore c.score)
      · refine ⟨c, ?_, ?_, hc⟩
        · rw [List.find?_cons_of_pos]
          exact beq_iff_eq.mpr hc
        · have hgt : st.bestScore < c.score := by
            rw [← hc] at hlt
            exact hlt
          have hstep : stepCand st c =
              ⟨c.score, some c.action, some c.keyword, c.param⟩ := by
            unfold stepCand
            rw [if_pos hgt]
          rw [List.foldl_cons, hstep]
          apply foldl_stepCand_of_le
          intro d hd
          show d.score ≤ c.score
          rw [hc]
          exact mem_le_foldl_max _ _ _ (List.mem_map_of_mem _ hd)
      · have hfind : ((c :: cs).find? fun d =>
            d.score == (cs.map Candidate.score).foldl max
              (max st.bestScore c.score)) =
            (cs.find? fun d =>
              d.score == (cs.map Candidate.score).foldl max
                (max st.bestScore c.score)) :=
          List.find?_cons_of_neg _ fun h => hc (beq_iff_eq.mp h)
        rcases le_or_lt c.score st.bestScore with hle | hgt
        · have hmax : max st.bestScore c.score = st.bestScore := max_eq_left hle
          rw [hmax] at hlt hfind ⊢
          have hstep : stepCand st c = st := by
            unfold stepCand
            rw [if_neg (not_lt.mpr hle)]
          rcases ih st hlt with ⟨c₀, h1, h2, h3⟩
          refine ⟨c₀, ?_, ?_, h3⟩
          · rw [hfind]
            exact h1
          · rw [List.foldl_cons, hstep]
            exact h2
        · have hmax : max st.bestScore c.score = c.score := max_eq_right hgt.le
          rw [hmax] at hlt hfind hc ⊢
          have hstep : stepCand st c =
              ⟨c.score, some c.action, some c.keyword, c.param⟩ := by
            unfold stepCand
            rw [if_pos hgt]
          have hlt2 : c.score < (cs.map Candidate.score).foldl max c.score := by
            have hle2 : c.score ≤ (cs.map Candidate.score).foldl max c.score :=
              le_foldl_max _ _
            rcases lt_or_eq_of_le hle2 with h | h
            · exact h
            · exact absurd h hc
          rcases ih ⟨c.score, some c.action, some c.keyword, c.param⟩ hlt2
            with ⟨c₀, h1, h2, h3⟩
          refine ⟨c₀, ?_, ?_, h3⟩
          · rw [hfind]
            exact h1
          · rw [List.foldl_cons, hstep]
            exact h2

theorem bestScoreSpec_nonneg (text : String) : 0 ≤ bestScoreSpec text :=
  le_foldl_max _ _

theorem bestMatch_score (text : String) :
    (bestMatch text).bestScore = bestScoreSpec text := by
  rw [bestMatch_eq_foldl, foldl_stepCand_score]
  rfl

theorem bestMatch_of_best_nonpos (text : String) (h : bestScoreSpec text ≤ 0) :
    bestMatch text = initMatch := by
  rw [bestMatch_eq_foldl]
  apply foldl_stepCand_of_le
  intro c hc
  exact le_trans (mem_le_foldl_max _ _ _ (List.mem_map_of_mem _ hc)) h

theorem bestMatch_of_best_pos (text : String) (h : 0 < bestScoreSpec text) :
    ∃ c₀, firstBest text = some c₀ ∧
      bestMatch text = ⟨c₀.score, some c₀.action, some c₀.keyword, c₀.param⟩ ∧
      c₀.score = bestScoreSpec text := by
  have := foldl_stepCand_find (candidates text) initMatch h
  rw [← bestMatch_eq_foldl] at this
  exact this

/-- The two values of `wakeWordState`. -/
inductive WakeState where
  | idle
  | active
deriving DecidableEq

/-- The two values of `modeState`. -/
inductive Mode where
  | command
  | dictation
deriving DecidableEq

/-- The session's mutable state: `wakeWordState`, `modeState`, the
configured `wakeWord`, and the pending `activeTimeout` as the absolute
time (in ms) at which it fires, `none` when not armed. -/
structure Session where
  wakeWordState : WakeState
  modeState : Mode
  wakeWord : String
  deadline : Option ℕ
deriving DecidableEq

/-- `resetActiveTimeout` (source lines 258–263): clear the old timer and
arm a new one 10000 ms from now. -/
def resetActiveTimeout (s : Session) (now : ℕ) : Session :=
  { s with deadline := some (now + 10000) }

/-- `activateWakeWord` (source lines 244–249): enter the `active` state
and arm the inactivity timer. -/
def activateWakeWord (s : Session) (now : ℕ) : Session :=
  resetActiveTimeout { s with wakeWordState := WakeState.active } now

/-- `idleWakeWord` (source lines 251–256), the `activeTimeout` callback:
back to `idle`, mode reset to command. -/
def idleWakeWord (s : Session) : Session :=
  { s with
    wakeWordState := WakeState.idle
    modeState := Mode.command
    deadline := none }

/-- Mode effect of `executeCommand` (source lines 640–649): only the
`startTyping` and `stopTyping` actions touch `modeState`. -/
def modeAfterAction (m : Mode) (action : String) : Mode :=
  if action = "startTyping" then Mode.dictation
  else if action = "stopTyping" then Mode.command
  else m

/-- The dictation-exit test of `handleDictation` (source lines 328–329):
similarity of the normalized transcript with "stop typing" or
"command mode" above 0.8. -/
def dictationExit (transcript : String) : Bool :=
  decide (mkRat 8 10 <
      stringSimilarity (jsTrim (jsLower transcript)) "stop typing") ||
    decide (mkRat 8 10 <
      stringSimilarity (jsTrim (jsLower transcript)) "command mode")

/-- One `recognition.onresult` step for a final transcript (source lines
59–79): trim and lowercase; drop empty transcripts; in `idle` look for the
wake word; in `active` re-arm the inactivity timer and hand the transcript
to `parseCommand` (command mode) or `handleDictation` (dictation mode),
applying the executed action's mode effect.  Returns the updated session
and the command-mode decision when the parser ran. -/
def onResult (s : Session) (now : ℕ) (raw : String) :
    Session × Option Decision :=
  let finalTranscript := jsLower (jsTrim raw)
  if finalTranscript = "" then (s, none)
  else if s.wakeWordState = WakeState.idle then
    if jsIncludes finalTranscript (jsLower s.wakeWord) then
      (activateWakeWord s now, none)
    else (s, none)
  else
    let s1 := resetActiveTimeout s now
    if s1.modeState = Mode.dictation then
      if dictationExit finalTranscript then
        ({ s1 with modeState := Mode.command }, none)
      else (s1, none)
    else
      match parseCommand finalTranscript with
      | Decision.execute a p =>
          ({ s1 with modeState := modeAfterAction s1.modeState a },
            some (Decision.execute a p))
      | d => (s1, some d)

theorem string_eq_empty_iff (s : String) : s = "" ↔ s.data = [] :=
  ⟨fun h => congrArg String.data h, fun h => congrArg String.mk h⟩

theorem jsLower_ne_empty {s : String} (h : s ≠ "") : jsLower s ≠ "" := by
  intro h2
  apply h
  rw [string_eq_empty_iff] at h2 ⊢
  exact List.map_eq_nil.mp h2

theorem listIncludes_ne_nil {pat l : List Char} (hp : pat ≠ [])
    (h : listIncludes pat l = true) : l ≠ [] := by
  intro hl
  subst hl
  cases pat with
  | nil => exact hp rfl
  | cons c cs => simp [listIncludes, List.isEmpty] at h

theorem parseCommand_accepts (t : String)
    (h : mkRat 6 10 < bestScoreSpec (parseText t)) :
    ∃ c₀, firstBest (parseText t) = some c₀ ∧
      parseCommand t = Decision.execute c₀.action c₀.param := by
  have h0 : (0 : ℚ) < bestScoreSpec (parseText t) :=
    lt_trans (by decide) h
  rcases bestMatch_of_best_pos _ h0 with ⟨c₀, hfb, hbm, hsc⟩
  refine ⟨c₀, hfb, ?_⟩
  simp only [parseCommand]
  rw [hbm]
  have hgt : (⟨c₀.score, some c₀.action, some c₀.keyword, c₀.param⟩ :
      MatchState).bestScore > mkRat 6 10 := by
    show mkRat 6 10 < c₀.score
    rw [hsc]
    exact h
  rw [if_pos hgt]
  rfl

theorem parseCommand_clarifies (t : String)
    (h1 : bestScoreSpec (parseText t) ≤ mkRat 6 10)
    (h2 : 0 < bestScoreSpec (parseText t)) :
    ∃ c₀, firstBest (parseText t) = some c₀ ∧
      parseCommand t = Decision.clarify c₀.keyword := by
  rcases bestMatch_of_best_pos _ h2 with ⟨c₀, hfb, hbm, hsc⟩
  refine ⟨c₀, hfb, ?_⟩
  simp only [parseCommand]
  rw [hbm]
  have hng : ¬ ((⟨c₀.score, some c₀.action, some c₀.keyword, c₀.param⟩ :
      MatchState).bestScore > mkRat 6 10) := by
    show ¬ (mkRat 6 10 < c₀.score)
    rw [hsc]
    exact not_lt.mpr h1
  rw [if_neg hng]
  rfl

theorem parseCommand_rejects (t : String)
    (h : bestScoreSpec (parseText t) ≤ 0) :
    parseCommand t = Decision.notRecognized := by
  have hbm := bestMatch_of_best_nonpos _ h
  simp only [parseCommand]
  rw [hbm]
  rfl

/-- C1: while the session is active in command mode, every nonempty final
transcript is handed to `parseCommand`, whose decision follows the
two-tier policy over the whole vocabulary-times-synonym cross-product: a
best score above `0.6` executes the first best-scoring action with its
extracted parameter; otherwise a positive best score emits a clarification
carrying the best keyword and no action; otherwise the command is
reported as not recognized. -/
theorem C1_decision_policy (s : Session) (now : ℕ) (raw : String)
    (hA : s.wakeWordState = WakeState.active)
    (hM : s.modeState = Mode.command)
    (hne : jsLower (jsTrim raw) ≠ "") :
    (onResult s now raw).2 = some (parseCommand (jsLower (jsTrim raw))) ∧
    (mkRat 6 10 < bestScoreSpec (parseText (jsLower (jsTrim raw))) →
      ∃ c₀, firstBest (parseText (jsLower (jsTrim raw))) = some c₀ ∧
        parseCommand (jsLower (jsTrim raw)) =
          Decision.execute c₀.action c₀.param) ∧
    (bestScoreSpec (parseText (jsLower (jsTrim raw))) ≤ mkRat 6 10 →
      0 < bestScoreSpec (parseText (jsLower (jsTrim raw))) →
      ∃ c₀, firstBest (parseText (jsLower (jsTrim raw))) = some c₀ ∧
        parseCommand (jsLower (jsTrim raw)) = Decision.clarify c₀.keyword) ∧
    (bestScoreSpec (parseText (jsLower (jsTrim raw))) ≤ 0 →
      parseCommand (jsLower (jsTrim raw)) = Decision.notRecognized) := by
  refine ⟨?_, fun h => parseCommand_accepts _ h,
    fun h1 h2 => parseCommand_clarifies _ h1 h2,
    fun h => parseCommand_rejects _ h⟩
  have hnidle : ¬ (s.wakeWordState = WakeState.idle) := by
    rw [hA]
    intro h
    cases h
  have hmode : ¬ ((resetActiveTimeout s now).modeState = Mode.dictation) := by
    show ¬ (s.modeState = Mode.dictation)
    rw [hM]
    intro h
    cases h
  simp only [onResult]
  rw [if_neg hne, if_neg hnidle, if_neg hmode]
  split
  · next a p heq => rw [heq]
  · next x heq => rfl

/-- Witness for C1 at a concrete input. -/
theorem C1_witness :
    ((⟨WakeState.active, Mode.command, "hey browser", none⟩ :
        Session).wakeWordState = WakeState.active) ∧
    (onResult ⟨WakeState.active, Mode.command, "hey browser", none⟩ 0
        "scroll down").2 =
      some (parseCommand (jsLower (jsTrim "scroll down"))) :=
  ⟨rfl, (C1_decision_policy _ 0 "scroll down" rfl rfl (by decide)).1⟩

/-- C2 (amended): while `idle`, a final transcript not containing the
configured wake word leaves the session unchanged; a transcript containing
the (nonempty) wake word transitions to `active` and arms the 10-second
deadline; while `active`, every transcript that is nonempty after trimming
re-arms the deadline; and when the armed timer fires, `wakeWordState`
returns to `idle` and the mode resets to command. -/
theorem C2_session_machine (s : Session) (now : ℕ) (raw : String) :
    (s.wakeWordState = WakeState.idle →
      jsIncludes (jsLower (jsTrim raw)) (jsLower s.wakeWord) = false →
      onResult s now raw = (s, none)) ∧
    (s.wakeWordState = WakeState.idle → s.wakeWord ≠ "" →
      jsIncludes (jsLower (jsTrim raw)) (jsLower s.wakeWord) = true →
      (onResult s now raw).1.wakeWordState = WakeState.active ∧
      (onResult s now raw).1.deadline = some (now + 10000)) ∧
    (s.wakeWordState = WakeState.active → jsTrim raw ≠ "" →
      (onResult s now raw).1.deadline = some (now + 10000)) ∧
    ((idleWakeWord s).wakeWordState = WakeState.idle ∧
      (idleWakeWord s).modeState = Mode.command) := by
  refine ⟨?_, ?_, ?_, rfl, rfl⟩
  · intro hIdle hNotInc
    by_cases hft : jsLower (jsTrim raw) = ""
    · simp only [onResult]
      rw [if_pos hft]
    · simp only [onResult]
      rw [if_neg hft, if_pos hIdle, if_neg (by simp [hNotInc])]
  · intro hIdle hw hInc
    have hpat : (jsLower s.wakeWord).data ≠ [] := by
      intro h
      exact jsLower_ne_empty hw ((string_eq_empty_iff _).mpr h)
    have hft : jsLower (jsTrim raw) ≠ "" := by
      intro h
      have hdata : (jsLower (jsTrim raw)).data = [] :=
        (string_eq_empty_iff _).mp h
      exact listIncludes_ne_nil hpat hInc hdata
    simp only [onResult]
    rw [if_neg hft, if_pos hIdle, if_pos hInc]
    exact ⟨rfl, rfl⟩
  · intro hAct htr
    have hft : jsLower (jsTrim raw) ≠ "" := jsLower_ne_empty htr
    have hnidle : ¬ (s.wakeWordState = WakeState.idle) := by
      rw [hAct]
      intro h
      cases h
    simp only [onResult]
    rw [if_neg hft, if_neg hnidle]
    split
    · split
      · rfl
      · rfl
    · split
      · rfl
      · rfl

/-- Counterexample to C2 as stated: a whitespace-only final transcript
received while the session is active does not re-arm the inactivity
deadline (the handler drops empty transcripts before the timer reset). -/
theorem C2_counterexample :
    (onResult ⟨WakeState.active, Mode.command, "hey browser", some 5000⟩
        6000 " ").1.deadline = some 5000 ∧
      (5000 : ℕ) ≠ 6000 + 10000 := by
  constructor
  · rfl
  · decide

/-- Witness for C2 at a concrete input. -/
theorem C2_witness :
    ((⟨WakeState.idle, Mode.command, "hey browser", none⟩ :
        Session).wakeWordState = WakeState.idle) ∧
    ("hey browser" : String) ≠ "" ∧
    jsIncludes (jsLower (jsTrim "hey browser please"))
      (jsLower "hey browser") = true ∧
    ((onResult ⟨WakeState.idle, Mode.command, "hey browser", none⟩ 0
        "hey browser please").1.wakeWordState = WakeState.active ∧
      (onResult ⟨WakeState.idle, Mode.command, "hey browser", none⟩ 0
          "hey browser please").1.deadline = some (0 + 10000)) :=
  ⟨rfl, by decide, by decide,
    (C2_session_machine _ 0 "hey browser please").2.1 rfl (by decide) (by decide)⟩

/-- C3: parameterized keyword scoring: with `k` a keyword's word count, a
transcript with at least `k` words is compared on its first `k` words
joined back together and everything after word `k` becomes the raw
parameter; a shorter transcript is compared whole and the parameter stays
empty; "go to netflix" parses to the `goTo` action with parameter
"netflix"; and a candidate that only ties the current best does not
replace it, so the first candidate in table order wins ties. -/
theorem C3_param_extraction :
    (∀ cmd ∈ commandMap, cmd.hasParam = true → ∀ kw ∈ cmd.keywords,
      ∀ text : String,
      ((jsSplitSpace text).length ≥ (jsSplitSpace kw).length →
        scoreKeyword text cmd kw =
          (stringSimilarity
            (joinSpace ((jsSplitSpace text).take (jsSplitSpace kw).length)) kw,
            joinSpace ((jsSplitSpace text).drop (jsSplitSpace kw).length))) ∧
      (¬ ((jsSplitSpace text).length ≥ (jsSplitSpace kw).length) →
        scoreKeyword text cmd kw = (stringSimilarity text kw, ""))) ∧
    parseCommand "go to netflix" = Decision.execute "goTo" "netflix" ∧
    (∀ (st : MatchState) (c : Candidate), c.score ≤ st.bestScore →
      stepCand st c = st) := by
  refine ⟨?_, by decide, ?_⟩
  · intro cmd _ hp kw _ text
    constructor
    · intro hge
      simp only [scoreKeyword, hp, if_true]
      rw [if_pos hge]
    · intro hlt
      simp only [scoreKeyword, hp, if_true]
      rw [if_neg hlt]
  · intro st c hle
    unfold stepCand
    rw [if_neg (not_lt.mpr hle)]

/-- Witness for C3 at a concrete input. -/
theorem C3_witness :
    ((⟨["go to", "navigate to"], "goTo", true⟩ : CommandTemplate) ∈
        commandMap ∧
      "go to" ∈ (⟨["go to", "navigate to"], "goTo", true⟩ :
        CommandTemplate).keywords ∧
      (jsSplitSpace "go to netflix").length ≥ (jsSplitSpace "go to").length) ∧
    scoreKeyword "go to netflix" ⟨["go to", "navigate to"], "goTo", true⟩
        "go to" =
      (stringSimilarity (joinSpace ((jsSplitSpace "go to netflix").take
          (jsSplitSpace "go to").length)) "go to",
        joinSpace ((jsSplitSpace "go to netflix").drop
          (jsSplitSpace "go to").length)) :=
  ⟨⟨by decide, by decide, by decide⟩,
    (C3_param_extraction.1 ⟨["go to", "navigate to"], "goTo", true⟩
      (by decide) (by decide) "go to" (by decide) "go to netflix").1
      (by decide)⟩

theorem foldl_stepCand_action (cs : List Candidate) : ∀ st : MatchState,
    (cs.foldl stepCand st).bestAction = st.bestAction ∨
      ∃ c ∈ cs, (cs.foldl stepCand st).bestAction = some c.action := by
  induction cs with
  | nil => intro st; left; rfl
  | cons c cs ih =>
      intro st
      rw [List.foldl_cons]
      rcases ih (stepCand st c) with h | ⟨d, hd, h⟩
      · by_cases hgt : c.score > st.bestScore
        · right
          refine ⟨c, List.mem_cons_self _ _, ?_⟩
          rw [h]
          unfold stepCand
          rw [if_pos hgt]
        · left
          rw [h]
          unfold stepCand
          rw [if_neg hgt]
      · right
        exact ⟨d, List.mem_cons_of_mem _ hd, h⟩

theorem candidates_action (text : String) (c : Candidate)
    (hc : c ∈ candidates text) : ∃ cmd ∈ commandMap, c.action = cmd.action := by
  unfold candidates at hc
  rcases List.mem_bind.mp hc with ⟨cmd, hcmd, hmem⟩
  refine ⟨cmd, hcmd, ?_⟩
  unfold candidatesOf at hmem
  rcases List.mem_map.mp hmem with ⟨kw, _, hkw⟩
  rw [← hkw]

/-- C7 (code bug): the executor's `startTyping` case would switch the mode
from command to dictation, but no `commandMap` template carries the
`startTyping` action, so the matcher can never produce it: no transcript
whatsoever is recognized as `startTyping`, and dictation mode is
unreachable from command mode. -/
theorem C7_startTyping_unreachable (t p : String) :
    modeAfterAction Mode.command "startTyping" = Mode.dictation ∧
    parseCommand t ≠ Decision.execute "startTyping" p := by
  refine ⟨rfl, ?_⟩
  intro h
  have hall : ∀ cmd ∈ commandMap, cmd.action ≠ "startTyping" := by decide
  simp only [parseCommand] at h
  split at h
  · injection h with h1 h2
    have hact := foldl_stepCand_action (candidates (parseText t)) initMatch
    rw [← bestMatch_eq_foldl] at hact
    rcases hact with hnone | ⟨c, hc, hsome⟩
    · rw [hnone] at h1
      exact absurd h1 (by decide)
    · rw [hsome] at h1
      rcases candidates_action _ c hc with ⟨cmd, hcmd, hca⟩
      exact hall cmd hcmd (by rw [← hca]; exact h1)
  · split at h
    · exact Decision.noConfusion h
    · exact Decision.noConfusion h

/-- URL resolution of the `goTo` executor case (source lines 422–429):
strip all whitespace, append ".com" when no dot is present, then prefix
"https://" unless the string already starts with "http". -/
def resolveGoToUrl (param : String) : String :=
  let urlPart := jsStripSpaces param
  let urlPart2 := if jsIncludes urlPart "." then urlPart else urlPart ++ ".com"
  if jsStartsWith urlPart2 "http" then urlPart2 else "https://" ++ urlPart2

/-- C6: the `goTo` parameter is resolved by stripping whitespace,
appending ".com" only when the result has no dot, and prefixing
"https://" unless it already starts with "http"; so "netflix" resolves to
"https://netflix.com" while "example.org" keeps its suffix. -/
theorem C6_goTo_url (param : String) :
    (jsIncludes (jsStripSpaces param) "." = false →
      resolveGoToUrl param =
        (if jsStartsWith (jsStripSpaces param ++ ".com") "http"
          then jsStripSpaces param ++ ".com"
          else "https://" ++ (jsStripSpaces param ++ ".com"))) ∧
    (jsIncludes (jsStripSpaces param) "." = true →
      resolveGoToUrl param =
        (if jsStartsWith (jsStripSpaces param) "http"
          then jsStripSpaces param
          else "https://" ++ jsStripSpaces param)) ∧
    resolveGoToUrl "netflix" = "https://netflix.com" ∧
    resolveGoToUrl "example.org" = "https://example.org" := by
  refine ⟨?_, ?_, by decide, by decide⟩
  · intro h
    simp [resolveGoToUrl, h]
  · intro h
    simp [resolveGoToUrl, h]

/-- Witness for C6 at a concrete input. -/
theorem C6_witness :
    jsIncludes (jsStripSpaces "netflix") "." = false ∧
    resolveGoToUrl "netflix" =
      (if jsStartsWith (jsStripSpaces "netflix" ++ ".com") "http"
        then jsStripSpaces "netflix" ++ ".com"
        else "https://" ++ (jsStripSpaces "netflix" ++ ".com")) :=
  ⟨by decide, (C6_goTo_url "netflix").1 (by decide)⟩

/-- One entry of the element registry of the part_003 variant: a
normalized lowercase name together with an opaque identifier standing
for the DOM node, in document order. -/
structure RegEntry where
  name : String
  elemId : ℕ
deriving DecidableEq

/-- Newline-run collapsing of `buildElementRegistry` (source line 88,
`name.replace(/[\n\r]+/g, ' ')`): a run of newline characters becomes one
space; the flag records whether the previous character was in a run. -/
def collapseNewlinesAux (inRun : Bool) : List Char → List Char
  | [] => []
  | c :: cs =>
      if c == '\n' || c == '\r' then
        if inRun then collapseNewlinesAux true cs
        else ' ' :: collapseNewlinesAux true cs
      else c :: collapseNewlinesAux false cs

/-- JS `name.replace(/[\n\r]+/g, ' ')`. -/
def collapseNewlines (l : List Char) : List Char := collapseNewlinesAux false l

/-- Name normalization of `buildElementRegistry` (source line 88):
collapse newline runs to single spaces, trim, lowercase. -/
def cleanName (name : String) : String :=
  jsLower (jsTrim ⟨collapseNewlines name.data⟩)

/-- The element lookup of part_003's `parseCommand` (source lines
467–471): exact name equality first, then bidirectional substring
containment, each returning the first match in registry order. -/
def lookupElement (reg : List RegEntry) (targetName : String) :
    Option RegEntry :=
  match reg.find? fun e => e.name == targetName with
  | some e => some e
  | none => reg.find? fun e =>
      jsIncludes e.name targetName || jsIncludes targetName e.name

/-- C9: registry lookup tries exact equality against the normalized
lowercase names first and only falls back to bidirectional substring
containment when no exact match exists, returning the first matching
entry in registry (document) order; a button named via
`aria-label="Sign In"` is found by `lookup "sign in"`, and with entries
"sign in" and "sign up" the query "sign" returns the document-order-first
entry. -/
theorem C9_registry_lookup (reg : List RegEntry) (t : String) :
    (∀ e, (reg.find? fun e2 => e2.name == t) = some e →
      lookupElement reg t = some e) ∧
    ((reg.find? fun e2 => e2.name == t) = none →
      lookupElement reg t = reg.find? fun e2 =>
        jsIncludes e2.name t || jsIncludes t e2.name) ∧
    cleanName "Sign In" = "sign in" ∧
    lookupElement [⟨cleanName "Sign In", 1⟩, ⟨cleanName "Sign Up", 2⟩]
      "sign" = some ⟨"sign in", 1⟩ ∧
    lookupElement [⟨cleanName "Sign In", 1⟩] "sign in" =
      some ⟨"sign in", 1⟩ := by
  refine ⟨?_, ?_, by decide, by decide, by decide⟩
  · intro e he
    unfold lookupElement
    rw [he]
  · intro hn
    unfold lookupElement
    rw [hn]

/-- Witness for C9 at a concrete input. -/
theorem C9_witness :
    (([⟨"abc", 1⟩] : List RegEntry).find? fun e2 => e2.name == "abc") =
        some ⟨"abc", 1⟩ ∧
    lookupElement [⟨"abc", 1⟩] "abc" = some ⟨"abc", 1⟩ :=
  ⟨by decide, (C9_registry_lookup [⟨"abc", 1⟩] "abc").1 ⟨"abc", 1⟩ (by decide)⟩

/-- The kinds of `document.activeElement` the typing handlers
distinguish. -/
inductive ElemKind where
  | input
  | textarea
  | contentEditable
  | other
deriving DecidableEq

/-- A focused page element with its current text (`value` for form
fields, `textContent` for contentEditable nodes). -/
structure FocusedElem where
  kind : ElemKind
  content : String
deriving DecidableEq

/-- The editability test `el.tagName === "INPUT" || el.tagName ===
"TEXTAREA" || el.isContentEditable`. -/
def isEditable (k : ElemKind) : Bool :=
  k == ElemKind.input || k == ElemKind.textarea || k == ElemKind.contentEditable

/-- The `type` executor case (source lines 543–560): for a focused
editable element, contentEditable appends the typed text to
`textContent`, while INPUT/TEXTAREA have `value` assigned (replaced);
otherwise an error is reported.  Returns the element afterwards and
whether typing happened. -/
def execType (el : Option FocusedElem) (param : String) :
    Option FocusedElem × Bool :=
  match el with
  | some e =>
      if isEditable e.kind then
        if e.kind = ElemKind.contentEditable then
          (some ⟨e.kind, e.content ++ param⟩, true)
        else (some ⟨e.kind, param⟩, true)
      else (some e, false)
  | none => (none, false)

/-- `handleDictation` (source lines 327–347): exit to command mode when
the normalized transcript scores above 0.8 against "stop typing" or
"command mode"; otherwise append the transcript plus a trailing space to
the focused editable element's content, or report that no input is
focused.  Returns the mode afterwards, the element, and whether text was
appended. -/
def handleDictation (el : Option FocusedElem) (transcript : String) :
    Mode × Option FocusedElem × Bool :=
  if dictationExit transcript then (Mode.command, el, false)
  else
    match el with
    | some e =>
        if isEditable e.kind then
          (Mode.dictation, some ⟨e.kind, e.content ++ transcript ++ " "⟩, true)
        else (Mode.dictation, some e, false)
    | none => (Mode.dictation, none, false)

/-- C10: with a focused INPUT or TEXTAREA, the `type` action replaces the
content with exactly the spoken parameter, while dictation-mode handling
appends the transcript plus a trailing space; for a contentEditable
element both paths append instead of replacing. -/
theorem C10_type_vs_dictation (k : ElemKind) (content param transcript : String)
    (hk : k = ElemKind.input ∨ k = ElemKind.textarea)
    (hnx : dictationExit transcript = false) :
    execType (some ⟨k, content⟩) param = (some ⟨k, param⟩, true) ∧
    handleDictation (some ⟨k, content⟩) transcript =
      (Mode.dictation, some ⟨k, content ++ transcript ++ " "⟩, true) ∧
    execType (some ⟨ElemKind.contentEditable, content⟩) param =
      (some ⟨ElemKind.contentEditable, content ++ param⟩, true) ∧
    handleDictation (some ⟨ElemKind.contentEditable, content⟩) transcript =
      (Mode.dictation, some ⟨ElemKind.contentEditable,
        content ++ transcript ++ " "⟩, true) := by
  rcases hk with hk | hk <;> subst hk <;>
    exact ⟨rfl, by simp [handleDictation, hnx, isEditable], rfl,
      by simp [handleDictation, hnx, isEditable]⟩

/-- Witness for C10 at a concrete input. -/
theorem C10_witness :
    ((ElemKind.input = ElemKind.input ∨ ElemKind.input = ElemKind.textarea) ∧
      dictationExit "hello world" = false) ∧
    execType (some ⟨ElemKind.input, "old"⟩) "new" =
      (some ⟨ElemKind.input, "new"⟩, true) ∧
    handleDictation (some ⟨ElemKind.input, "old"⟩) "hello world" =
      (Mode.dictation, some ⟨ElemKind.input, "old" ++ "hello world" ++ " "⟩,
        true) :=
  ⟨⟨Or.inl rfl, by decide⟩,
    (C10_type_vs_dictation ElemKind.input "old" "new" "hello world"
      (Or.inl rfl) (by decide)).1,
    (C10_type_vs_dictation ElemKind.input "old" "new" "hello world"
      (Or.inl rfl) (by decide)).2.1⟩

/-- The viewport-relative rectangle `getBoundingClientRect` returns. -/
structure Rect where
  width : ℚ
  height : ℚ
  top : ℚ
  bottom : ℚ
  left : ℚ
  right : ℚ
deriving DecidableEq

/-- The window metrics `showLinks` consults. -/
structure Window where
  innerHeight : ℚ
  innerWidth : ℚ
deriving DecidableEq

/-- An anchor element of the page with its bounding rectangle, in
document order. -/
structure Link where
  rect : Rect
  linkId : ℕ
deriving DecidableEq

/-- The skip test of `showLinks` (source lines 180–188): links with an
empty box or lying outside the viewport get no badge. -/
def linkHidden (w : Window) (l : Link) : Bool :=
  l.rect.width == 0 || l.rect.height == 0 ||
    decide (l.rect.bottom < 0) || decide (l.rect.top > w.innerHeight) ||
    decide (l.rect.right < 0) || decide (l.rect.left > w.innerWidth)

/-- The page state the badge overlay touches: the page's anchors, the
`linkBadges` list (badge number paired with its link), and whether the
10-second auto-hide timer is armed. -/
structure PageState where
  links : List Link
  linkBadges : List (ℕ × Link)
  badgeTimerArmed : Bool
deriving DecidableEq

/-- `hideLinks` (source lines 222–231): clear the auto-hide timer and
remove every badge, emptying the badge list. -/
def hideLinks (p : PageState) : PageState :=
  { p with linkBadges := [], badgeTimerArmed := false }

/-- `showLinks` (source lines 173–220): clear any existing badges, badge
every visible link with the running count 1, 2, ..., and arm the
auto-hide timer. -/
def showLinks (w : Window) (p : PageState) : PageState :=
  let cleared := hideLinks p
  let visible := p.links.filter fun l => !linkHidden w l
  { cleared with
    linkBadges := visible.enum.map fun q => (q.1 + 1, q.2)
    badgeTimerArmed := true }

/-- A clickable page element (anchor, button, role=button, submit input)
with its visible text and aria-label, in document order. -/
structure Clickable where
  innerText : String
  ariaLabel : String
deriving DecidableEq

/-- Value of a leading run of decimal digits. -/
def digitsVal : List Char → ℕ → ℕ
  | [], acc => acc
  | c :: cs, acc =>
      if c.isDigit then digitsVal cs (acc * 10 + (c.toNat - 48)) else acc

/-- JS `parseInt(target, 10)`: skip leading whitespace, read an optional
sign and then leading decimal digits; `NaN` (here `none`) when no digit
follows. -/
def jsParseInt (s : String) : Option ℤ :=
  match s.data.dropWhile isJsSpace with
  | '-' :: rest =>
      match rest with
      | c :: _ => if c.isDigit then some (-(digitsVal rest 0 : ℤ)) else none
      | [] => none
  | '+' :: rest =>
      match rest with
      | c :: _ => if c.isDigit then some ((digitsVal rest 0 : ℤ)) else none
      | [] => none
  | c :: cs => if c.isDigit then some ((digitsVal (c :: cs) 0 : ℤ)) else none
  | [] => none

/-- The possible outcomes of the `click` executor case. -/
inductive ClickOutcome where
  | clickWhat
  | badgeClick (n : ℕ)
  | elementClick (idx : ℕ)
  | elementNotFound
deriving DecidableEq

/-- The element-search fallback of the `click` case (source lines
516–539): the first clickable element whose lowercased text or aria-label
contains the target is clicked; otherwise the element is reported not
found. -/
def elementSearch (elements : List Clickable) (target : String) :
    ClickOutcome :=
  match elements.findIdx? (fun el =>
      jsIncludes (jsLower el.innerText) target ||
        jsIncludes (jsLower el.ariaLabel) target) with
  | some i => ClickOutcome.elementClick i
  | none => ClickOutcome.elementNotFound

/-- The `click` executor case (source lines 496–541): an empty parameter
asks "Click what?"; when badges are visible and the parameter parses to a
number within 1..badges.length, that badge's link is clicked (and the
badges hidden); otherwise the clickable elements are searched. -/
def execClick (badges : List (ℕ × Link)) (elements : List Clickable)
    (target : String) : ClickOutcome :=
  if target = "" then ClickOutcome.clickWhat
  else
    match jsParseInt target with
    | some n =>
        if badges.length > 0 ∧ 1 ≤ n ∧ n ≤ (badges.length : ℤ) then
          ClickOutcome.badgeClick n.toNat
        else elementSearch elements target
    | none => elementSearch elements target

theorem showLinks_numbering (w : Window) (p : PageState) :
    (showLinks w p).linkBadges.map Prod.fst =
      List.range' 1 ((p.links.filter fun l => !linkHidden w l).length) := by
  simp only [showLinks]
  rw [List.map_map]
  have h1 : (Prod.fst ∘ fun q : ℕ × Link => (q.1 + 1, q.2)) =
      (fun n => n + 1) ∘ Prod.fst := rfl
  rw [h1, ← List.map_map, List.enum_map_fst, List.range'_eq_map_range]
  exact List.map_congr_left fun i _ => Nat.add_comm i 1

/-- C8 (amended): after `showLinks` runs on a page with exactly 3 visible
anchors, exactly 3 badges exist, numbered 1, 2, 3; `hideLinks` (also run
by the 10-second auto-hide timer) removes all badges and empties the
badge list; and once the badges are cleared, a numeric "click 2" command
is still accepted by the matcher as a `click` command whose executor,
finding no badges, falls back to the element search and reports the
element not found when nothing on the page matches "2" — it is not
reported as "not recognized". -/
theorem C8_link_badges (w : Window) (p : PageState)
    (h3 : (p.links.filter fun l => !linkHidden w l).length = 3) :
    (showLinks w p).linkBadges.map Prod.fst = [1, 2, 3] ∧
    (showLinks w p).linkBadges.length = 3 ∧
    (hideLinks (showLinks w p)).linkBadges = [] ∧
    (hideLinks (showLinks w p)).badgeTimerArmed = false ∧
    parseCommand "click 2" = Decision.execute "click" "2" ∧
    execClick [] [⟨"home", ""⟩, ⟨"about", ""⟩, ⟨"contact", ""⟩] "2" =
      ClickOutcome.elementNotFound := by
  refine ⟨?_, ?_, rfl, rfl, by decide, by decide⟩
  · rw [showLinks_numbering, h3]
    decide
  · have h := congrArg List.length (showLinks_numbering w p)
    rw [List.length_map, h3] at h
    rw [h]
    decide

/-- Counterexample to C8 as stated: with the badges cleared, the numeric
command "click 2" does not fail with "not recognized" — the matcher still
accepts it as a `click` command with parameter "2". -/
theorem C8_counterexample :
    parseCommand "click 2" ≠ Decision.notRecognized := by
  intro h
  have h2 : parseCommand "click 2" = Decision.execute "click" "2" := by decide
  rw [h2] at h
  exact Decision.noConfusion h

/-- Witness for C8 at a concrete input. -/
theorem C8_witness :
    ((⟨[⟨⟨1, 1, 0, 1, 0, 1⟩, 0⟩, ⟨⟨1, 1, 0, 1, 0, 1⟩, 1⟩,
        ⟨⟨1, 1, 0, 1, 0, 1⟩, 2⟩], [], false⟩ : PageState).links.filter
      (fun l => !linkHidden ⟨100, 100⟩ l)).length = 3 ∧
    (showLinks ⟨100, 100⟩ ⟨[⟨⟨1, 1, 0, 1, 0, 1⟩, 0⟩, ⟨⟨1, 1, 0, 1, 0, 1⟩, 1⟩,
        ⟨⟨1, 1, 0, 1, 0, 1⟩, 2⟩], [], false⟩).linkBadges.map Prod.fst =
      [1, 2, 3] :=
  ⟨by decide, (C8_link_badges ⟨100, 100⟩ _ (by decide)).1⟩

end VoiceControl
